import Mathlib

/-!
# Verification of go-mod-bootstrap's configuration reconciliation engine

Shallow embedding of the structural diff (`walkMapForChange`), the
private-override precedence check (`isPrivateOverride` / `isKeyInPrivate`),
the watch-loop step functions (`listenForPrivateChanges`,
`listenForCommonChanges`, `ListenForCustomConfigChanges`), the writable
update dispatcher (`applyWritableUpdates`), the insecure-secrets change set
(`getSecretNamesChanged`) and the JWT authentication middleware
(`VaultAuthenticationHandlerFunc`), together with theorems settling the
specification's claims about them.
-/

namespace Bootstrap

/-- An untyped Go configuration value (`any` restricted to the shapes the
diff walk distinguishes): `nil`, a comparable scalar, or a `map[string]any`
represented as an association list carrying one map-iteration order. -/
inductive GoVal where
  | null : GoVal
  | scalar : String → GoVal
  | vmap : List (String × GoVal) → GoVal

/-- Modelled from the spec: `utils.BuildBaseKey` joins key segments with the
`/` separator (key namespace convention `{stem}/{serviceKey}/{section}`). -/
def buildBaseKey (a b : String) : String := a ++ "/" ++ b

/-- `buildNewKey` from `config.go`: prefix `currentKey` with `previousKey`
unless the prefix is empty. -/
def buildNewKey (previousKey currentKey : String) : String :=
  if previousKey ≠ "" then buildBaseKey previousKey currentKey else currentKey

/-- Go interface equality as used on the non-map branch of the walk
(`updatedVal != previousVal` where `updatedVal` is not a map): values of
different dynamic type are unequal, `nil` equals `nil`, scalars compare by
value. -/
def scalarEqAny : GoVal → GoVal → Bool
  | .null, .null => true
  | .scalar a, .scalar b => a == b
  | _, _ => false

/-- `walkMapForChange` from `config.go`: depth-first walk of `updatedMap`
in its iteration order, looking each key up in `previousMap`; returns the
first changed key path found (an added key, a changed leaf, or the first
key under a newly-mapped value), or `""` when no change is detected. -/
def walkMapForChange : List (String × GoVal) → List (String × GoVal) → String → String
  | _, [], _ => ""
  | previousMap, (updatedKey, updatedVal) :: rest, changedKey =>
    match previousMap.lookup updatedKey with
    | none => buildNewKey changedKey updatedKey
    | some previousVal =>
      match updatedVal with
      | .vmap updatedSubMap =>
        match previousVal with
        | .vmap previousSubMap =>
          let key := walkMapForChange previousSubMap updatedSubMap
            (buildNewKey changedKey updatedKey)
          if key.length > 0 then key
          else walkMapForChange previousMap rest changedKey
        | _ =>
          match updatedSubMap with
          | [] => ""
          | (k, _) :: _ => buildNewKey (buildNewKey changedKey updatedKey) k
      | _ =>
        if scalarEqAny updatedVal previousVal then
          walkMapForChange previousMap rest changedKey
        else buildNewKey changedKey updatedKey

/-- Well-formed configuration tree: at every mapping level the keys are
nonempty and pairwise distinct, recursively. -/
def GoVal.wf : GoVal → Bool
  | .null => true
  | .scalar _ => true
  | .vmap [] => true
  | .vmap ((k, v) :: rest) =>
    k ≠ "" && (rest.lookup k).isNone && v.wf && (GoVal.vmap rest).wf

/-- Well-formedness of a mapping given as an entry list. -/
def wfMap (m : List (String × GoVal)) : Prop := (GoVal.vmap m).wf = true

theorem wfMap_nil : wfMap [] := by simp [wfMap, GoVal.wf]

theorem wfMap_cons {k : String} {v : GoVal} {rest : List (String × GoVal)}
    (h : wfMap ((k, v) :: rest)) :
    k ≠ "" ∧ (rest.lookup k) = none ∧ v.wf = true ∧ wfMap rest := by
  simp only [wfMap, GoVal.wf, Bool.and_eq_true, decide_eq_true_eq,
    Option.isNone_iff_eq_none] at h
  exact ⟨h.1.1.1, h.1.1.2, h.1.2, h.2⟩

theorem mem_keys_of_mem {m : List (String × GoVal)} {k : String} {v : GoVal}
    (h : (k, v) ∈ m) : k ∈ m.map Prod.fst :=
  List.mem_map.mpr ⟨(k, v), h, rfl⟩

/-- In a well-formed mapping, membership determines the lookup result. -/
theorem lookup_of_mem {m : List (String × GoVal)} {k : String} {v : GoVal}
    (hwf : wfMap m) (h : (k, v) ∈ m) : m.lookup k = some v := by
  induction m with
  | nil => cases h
  | cons hd tl ih =>
    obtain ⟨k0, v0⟩ := hd
    obtain ⟨_, hnone, _, hwt⟩ := wfMap_cons hwf
    rcases List.mem_cons.mp h with heq | hmem
    · cases heq
      simp [List.lookup]
    · by_cases hk : k = k0
      · subst hk
        have := ih hwt hmem
        rw [this] at hnone
        cases hnone
      · simpa [List.lookup, beq_false_of_ne (Ne.symm (fun e => hk e.symm))] using ih hwt hmem

/-- A successful lookup names an entry of the list. -/
theorem mem_of_lookup {m : List (String × GoVal)} {k : String} {v : GoVal}
    (h : m.lookup k = some v) : (k, v) ∈ m := by
  induction m with
  | nil => simp [List.lookup] at h
  | cons hd tl ih =>
    obtain ⟨k0, v0⟩ := hd
    cases hbe : (k == k0) with
    | true =>
      simp only [List.lookup, hbe, Option.some.injEq] at h
      have hkk : k = k0 := by simpa using hbe
      subst hkk; subst h
      exact List.mem_cons_self _ _
    | false =>
      simp only [List.lookup, hbe] at h
      exact List.mem_cons_of_mem _ (ih h)

/-- Values stored in a well-formed mapping are themselves well-formed. -/
theorem wf_of_mem {m : List (String × GoVal)} {k : String} {v : GoVal}
    (hwf : wfMap m) (h : (k, v) ∈ m) : v.wf = true := by
  induction m with
  | nil => cases h
  | cons hd tl ih =>
    obtain ⟨k0, v0⟩ := hd
    obtain ⟨_, _, hv0, hwt⟩ := wfMap_cons hwf
    rcases List.mem_cons.mp h with heq | hmem
    · cases heq; exact hv0
    · exact ih hwt hmem

/-- Keys of a well-formed mapping are nonempty. -/
theorem key_ne_empty_of_mem {m : List (String × GoVal)} {k : String} {v : GoVal}
    (hwf : wfMap m) (h : (k, v) ∈ m) : k ≠ "" := by
  induction m with
  | nil => cases h
  | cons hd tl ih =>
    obtain ⟨k0, v0⟩ := hd
    obtain ⟨hk0, _, _, hwt⟩ := wfMap_cons hwf
    rcases List.mem_cons.mp h with heq | hmem
    · cases heq; exact hk0
    · exact ih hwt hmem

theorem string_ne_empty_of_length_pos {s : String} (h : 0 < s.length) : s ≠ "" := by
  intro he; subst he; simp at h

theorem string_length_pos_of_ne {s : String} (h : s ≠ "") : 0 < s.length := by
  obtain ⟨data⟩ := s
  rcases data with _ | ⟨c, cs⟩
  · exact absurd rfl h
  · simp [String.length]

/-- `buildNewKey` never produces the empty string from a nonempty current key. -/
theorem buildNewKey_ne_empty {prev cur : String} (h : cur ≠ "") :
    buildNewKey prev cur ≠ "" := by
  unfold buildNewKey buildBaseKey
  split
  · intro he
    have : (prev ++ "/" ++ cur).length = 0 := by rw [he]; rfl
    simp [String.length_append] at this
    have := string_length_pos_of_ne h
    omega
  · exact h

/-- If every entry of `updatedMap` is bound to the same value in
`previousMap`, the walk reports no change. -/
theorem walk_eq_nil (updatedMap previousMap : List (String × GoVal)) (ck : String)
    (hwf : wfMap updatedMap)
    (hsub : ∀ k v, (k, v) ∈ updatedMap → previousMap.lookup k = some v) :
    walkMapForChange previousMap updatedMap ck = "" := by
  match updatedMap with
  | [] => simp [walkMapForChange]
  | (k, v) :: rest =>
    obtain ⟨_, _, hvwf, hwrest⟩ := wfMap_cons hwf
    have hk : previousMap.lookup k = some v := hsub k v (List.mem_cons_self _ _)
    have hrest : walkMapForChange previousMap rest ck = "" :=
      walk_eq_nil rest previousMap ck hwrest
        (fun k' v' h' => hsub k' v' (List.mem_cons_of_mem _ h'))
    match v, hvwf with
    | .null, _ =>
      simp [walkMapForChange, hk, scalarEqAny, hrest]
    | .scalar s, _ =>
      simp [walkMapForChange, hk, scalarEqAny, hrest]
    | .vmap sub, hvwf =>
      have hself : walkMapForChange sub sub (buildNewKey ck k) = "" :=
        walk_eq_nil sub sub (buildNewKey ck k) hvwf
          (fun k' v' h' => lookup_of_mem hvwf h')
      simp [walkMapForChange, hk, hself, hrest]
termination_by sizeOf updatedMap
decreasing_by
  all_goals simp
  all_goals omega

/-- The key path built by successive `buildNewKey` applications along a list
of keys, starting from prefix `ck`. -/
def joinPath (ck : String) : List String → String
  | [] => ck
  | k :: rest => joinPath (buildNewKey ck k) rest

theorem joinPath_ne_empty {p : List String} (ck : String)
    (hck : ck ≠ "" ∨ p ≠ []) (hkeys : ∀ k ∈ p, k ≠ "") : joinPath ck p ≠ "" := by
  induction p generalizing ck with
  | nil =>
    rcases hck with h | h
    · exact h
    · exact absurd rfl h
  | cons k rest ih =>
    have hk : k ≠ "" := hkeys k (List.mem_cons_self _ _)
    exact ih (buildNewKey ck k) (Or.inl (buildNewKey_ne_empty hk))
      (fun k' h' => hkeys k' (List.mem_cons_of_mem _ h'))

/-- The possible outcomes of the walk's per-entry step at the distinguished
key `K` (key absent from `previousMap`, changed scalar leaf, or a nested
mapping whose recursive walk reports `r`). -/
def StepCase (previousMap updatedMap : List (String × GoVal))
    (K ck r : String) : Prop :=
  (previousMap.lookup K = none ∧ r = buildNewKey ck K) ∨
  (∃ a b, previousMap.lookup K = some (.scalar a) ∧
    updatedMap.lookup K = some (.scalar b) ∧ a ≠ b ∧ r = buildNewKey ck K) ∨
  (∃ sub1 sub2, previousMap.lookup K = some (.vmap sub1) ∧
    updatedMap.lookup K = some (.vmap sub2) ∧
    walkMapForChange sub1 sub2 (buildNewKey ck K) = r ∧ r ≠ "")

/-- If every entry of `updatedMap` other than `K` is bound to the same value
in `previousMap`, the walk reaches `K` and returns the step's result there. -/
theorem walk_until (updatedMap previousMap : List (String × GoVal))
    (K ck r : String)
    (hwf : wfMap updatedMap)
    (hmem : K ∈ updatedMap.map Prod.fst)
    (hother : ∀ k v, (k, v) ∈ updatedMap → k ≠ K → previousMap.lookup k = some v)
    (hstep : StepCase previousMap updatedMap K ck r) :
    walkMapForChange previousMap updatedMap ck = r := by
  induction updatedMap with
  | nil => simp at hmem
  | cons hd rest ih =>
    obtain ⟨k, v⟩ := hd
    obtain ⟨_, hnodup, hvwf, hwrest⟩ := wfMap_cons hwf
    by_cases hkK : k = K
    · subst hkK
      have hlookup : ((k, v) :: rest).lookup k = some v := by simp [List.lookup]
      rcases hstep with ⟨hnone, hr⟩ | ⟨a, b, hpa, hub, hab, hr⟩ |
        ⟨sub1, sub2, hp, hu, hwalk, hr⟩
      · subst hr; simp [walkMapForChange, hnone]
      · rw [hlookup] at hub
        cases hub
        subst hr
        simp [walkMapForChange, hpa, scalarEqAny, beq_iff_eq, Ne.symm hab]
      · rw [hlookup] at hu
        cases hu
        have hlen : 0 < r.length := string_length_pos_of_ne hr
        simp [walkMapForChange, hp, hwalk, hlen, Nat.pos_iff_ne_zero.mp hlen]
    · have hvprev : previousMap.lookup k = some v :=
        hother k v (List.mem_cons_self _ _) hkK
      have hmem' : K ∈ rest.map Prod.fst := by
        simp only [List.map_cons, List.mem_cons] at hmem
        rcases hmem with h | h
        · exact absurd h.symm hkK
        · exact h
      have hother' : ∀ k' v', (k', v') ∈ rest → k' ≠ K →
          previousMap.lookup k' = some v' :=
        fun k' v' h' hne => hother k' v' (List.mem_cons_of_mem _ h') hne
      have hstep' : StepCase previousMap rest K ck r := by
        have hulook : ((k, v) :: rest).lookup K = rest.lookup K := by
          simp [List.lookup, beq_false_of_ne (fun e => hkK e.symm)]
        rcases hstep with h | ⟨a, b, hpa, hub, hab, hr⟩ |
          ⟨sub1, sub2, hp, hu, hwalk, hr⟩
        · exact Or.inl h
        · exact Or.inr (Or.inl ⟨a, b, hpa, by rw [← hulook]; exact hub, hab, hr⟩)
        · exact Or.inr (Or.inr ⟨sub1, sub2, hp, by rw [← hulook]; exact hu, hwalk, hr⟩)
      have htail := ih hwrest hmem' hother' hstep'
      match v, hvwf with
      | .null, _ => simpa [walkMapForChange, hvprev, scalarEqAny] using htail
      | .scalar s, _ => simpa [walkMapForChange, hvprev, scalarEqAny] using htail
      | .vmap sub, hvwf =>
        have hself : walkMapForChange sub sub (buildNewKey ck k) = "" :=
          walk_eq_nil sub sub _ hvwf (fun k' v' h' => lookup_of_mem hvwf h')
        simpa [walkMapForChange, hvprev, hself] using htail

/-- `previous` and `updated` are mappings that agree everywhere except at
exactly one leaf, reached by the key path `p`, where both hold scalars with
different values. -/
inductive DiffersAtOneLeaf :
    List (String × GoVal) → List (String × GoVal) → List String → Prop where
  | here (prev upd : List (String × GoVal)) (k a b : String)
      (hp : prev.lookup k = some (.scalar a))
      (hu : upd.lookup k = some (.scalar b))
      (hab : a ≠ b)
      (hothers : ∀ k' ∈ prev.map Prod.fst ++ upd.map Prod.fst, k' ≠ k →
        prev.lookup k' = upd.lookup k') :
      DiffersAtOneLeaf prev upd [k]
  | there (prev upd sub1 sub2 : List (String × GoVal)) (k : String) (p : List String)
      (hp : prev.lookup k = some (.vmap sub1))
      (hu : upd.lookup k = some (.vmap sub2))
      (hsub : DiffersAtOneLeaf sub1 sub2 p)
      (hothers : ∀ k' ∈ prev.map Prod.fst ++ upd.map Prod.fst, k' ≠ k →
        prev.lookup k' = upd.lookup k') :
      DiffersAtOneLeaf prev upd (k :: p)

/-- The keys along a single-leaf difference path are keys of the updated
mapping, hence nonempty when it is well-formed. -/
theorem diff_path_keys_ne_empty {prev upd : List (String × GoVal)} {p : List String}
    (h : DiffersAtOneLeaf prev upd p) (hwu : wfMap upd) : ∀ k ∈ p, k ≠ "" := by
  induction h with
  | here prev upd k a b hp hu hab hothers =>
    intro k' hk'
    rcases List.mem_singleton.mp hk' with rfl
    exact key_ne_empty_of_mem hwu (mem_of_lookup hu)
  | there prev upd sub1 sub2 k p hp hu hsub hothers ih =>
    intro k' hk'
    rcases List.mem_cons.mp hk' with rfl | hmem
    · exact key_ne_empty_of_mem hwu (mem_of_lookup hu)
    · exact ih (wf_of_mem hwu (mem_of_lookup hu)) k' hmem

/-- The forward walk finds the unique changed leaf. -/
theorem walk_finds_diff {prev upd : List (String × GoVal)} {p : List String}
    (h : DiffersAtOneLeaf prev upd p) (hwp : wfMap prev) (hwu : wfMap upd) :
    ∀ ck, walkMapForChange prev upd ck = joinPath ck p := by
  induction h with
  | here prev upd k a b hp hu hab hothers =>
    intro ck
    have hothers' : ∀ k' v', (k', v') ∈ upd → k' ≠ k → prev.lookup k' = some v' := by
      intro k' v' hmem hne
      have := hothers k' (List.mem_append.mpr (Or.inr (mem_keys_of_mem hmem))) hne
      rw [this]
      exact lookup_of_mem hwu hmem
    have := walk_until upd prev k ck (buildNewKey ck k) hwu
      (mem_keys_of_mem (mem_of_lookup hu)) hothers'
      (Or.inr (Or.inl ⟨a, b, hp, hu, hab, rfl⟩))
    simpa [joinPath] using this
  | there prev upd sub1 sub2 k p hp hu hsub hothers ih =>
    intro ck
    have hwsub1 : wfMap sub1 := wf_of_mem hwp (mem_of_lookup hp)
    have hwsub2 : wfMap sub2 := wf_of_mem hwu (mem_of_lookup hu)
    have hkne : k ≠ "" := key_ne_empty_of_mem hwu (mem_of_lookup hu)
    have hr : walkMapForChange sub1 sub2 (buildNewKey ck k) =
        joinPath (buildNewKey ck k) p := ih hwsub1 hwsub2 _
    have hrne : joinPath (buildNewKey ck k) p ≠ "" :=
      joinPath_ne_empty _ (Or.inl (buildNewKey_ne_empty hkne))
        (diff_path_keys_ne_empty hsub hwsub2)
    have hothers' : ∀ k' v', (k', v') ∈ upd → k' ≠ k → prev.lookup k' = some v' := by
      intro k' v' hmem hne
      have := hothers k' (List.mem_append.mpr (Or.inr (mem_keys_of_mem hmem))) hne
      rw [this]
      exact lookup_of_mem hwu hmem
    have := walk_until upd prev k ck (joinPath (buildNewKey ck k) p) hwu
      (mem_keys_of_mem (mem_of_lookup hu)) hothers'
      (Or.inr (Or.inr ⟨sub1, sub2, hp, hu, hr, hrne⟩))
    simpa [joinPath] using this

/-- The changed-key search performed inside `isPrivateOverride`: run the
walk forward, and when it reports no change, run it with the arguments
swapped to detect removals. -/
def findChangedKey (previousMap updatedMap : List (String × GoVal)) : String :=
  let changedKey := walkMapForChange previousMap updatedMap ""
  if changedKey = "" then walkMapForChange updatedMap previousMap "" else changedKey

/-- Identical mappings are reported as unchanged by the walk. -/
theorem walk_self_eq_nil (m : List (String × GoVal)) (ck : String) (hwf : wfMap m) :
    walkMapForChange m m ck = "" :=
  walk_eq_nil m m ck hwf (fun _ _ h => lookup_of_mem hwf h)

/-- The forward walk reports a top-level key present only in the updated
mapping, when the two mappings agree on every other key. -/
theorem walk_added_key {prev upd : List (String × GoVal)} {K : String} {v : GoVal}
    (hwu : wfMap upd)
    (hu : upd.lookup K = some v) (hp : prev.lookup K = none)
    (hothers : ∀ k' ∈ prev.map Prod.fst ++ upd.map Prod.fst, k' ≠ K →
      prev.lookup k' = upd.lookup k') (ck : String) :
    walkMapForChange prev upd ck = buildNewKey ck K := by
  have hothers' : ∀ k' v', (k', v') ∈ upd → k' ≠ K → prev.lookup k' = some v' := by
    intro k' v' hmem hne
    have := hothers k' (List.mem_append.mpr (Or.inr (mem_keys_of_mem hmem))) hne
    rw [this]
    exact lookup_of_mem hwu hmem
  exact walk_until upd prev K ck (buildNewKey ck K) hwu
    (mem_keys_of_mem (mem_of_lookup hu)) hothers' (Or.inl ⟨hp, rfl⟩)

/-- C1: for two well-formed configuration trees differing in exactly one
leaf at path `p`, the structural diff (`walkMapForChange` run forward, then
with the arguments swapped, as in `isPrivateOverride`) returns `p`; for two
identical trees it returns the no-change result (the empty path in both
directions); and for an updated tree containing a top-level key `k` absent
from the previous tree (the trees otherwise agreeing) it returns `k`. -/
theorem diff_single_leaf_correct :
    (∀ prev upd p, DiffersAtOneLeaf prev upd p → wfMap prev → wfMap upd →
      findChangedKey prev upd = joinPath "" p) ∧
    (∀ m, wfMap m → findChangedKey m m = "") ∧
    (∀ prev upd K v, wfMap prev → wfMap upd →
      upd.lookup K = some v → prev.lookup K = none →
      (∀ k' ∈ prev.map Prod.fst ++ upd.map Prod.fst, k' ≠ K →
        prev.lookup k' = upd.lookup k') →
      findChangedKey prev upd = K) := by
  refine ⟨?_, ?_, ?_⟩
  · intro prev upd p h hwp hwu
    have hfwd := walk_finds_diff h hwp hwu ""
    have hne : joinPath "" p ≠ "" := by
      cases h with
      | here prev upd k a b hp hu hab hothers =>
        exact joinPath_ne_empty "" (Or.inr (by simp))
          (diff_path_keys_ne_empty (.here prev upd k a b hp hu hab hothers) hwu)
      | there prev upd sub1 sub2 k p hp hu hsub hothers =>
        exact joinPath_ne_empty "" (Or.inr (by simp))
          (diff_path_keys_ne_empty (.there prev upd sub1 sub2 k p hp hu hsub hothers) hwu)
    simp [findChangedKey, hfwd, hne]
  · intro m hwf
    simp [findChangedKey, walk_self_eq_nil m "" hwf]
  · intro prev upd K v hwp hwu hu hp hothers
    have hfwd := walk_added_key hwu hu hp hothers ""
    have hK : K ≠ "" := key_ne_empty_of_mem hwu (mem_of_lookup hu)
    have hbk : buildNewKey "" K = K := by simp [buildNewKey]
    rw [hbk] at hfwd
    simp [findChangedKey, hfwd, hK]

/-- Witness for C1 at concrete trees: a changed nested leaf, identical
trees, and an added top-level key. -/
theorem diff_single_leaf_correct_witness :
    findChangedKey [("W", GoVal.vmap [("A", GoVal.scalar "1")])]
      [("W", GoVal.vmap [("A", GoVal.scalar "2")])] = "W/A" ∧
    findChangedKey [("W", GoVal.scalar "1")] [("W", GoVal.scalar "1")] = "" ∧
    findChangedKey [("W", GoVal.scalar "1")]
      [("W", GoVal.scalar "1"), ("B", GoVal.scalar "2")] = "B" := by
  refine ⟨?_, ?_, ?_⟩
  · have h := diff_single_leaf_correct.1
      [("W", GoVal.vmap [("A", GoVal.scalar "1")])]
      [("W", GoVal.vmap [("A", GoVal.scalar "2")])] ["W", "A"]
      (DiffersAtOneLeaf.there _ _ [("A", GoVal.scalar "1")] [("A", GoVal.scalar "2")]
        "W" ["A"]
        (by simp [List.lookup]) (by simp [List.lookup])
        (DiffersAtOneLeaf.here _ _ "A" "1" "2"
          (by simp [List.lookup]) (by simp [List.lookup]) (by simp)
          (by intro k' hk' hne; simp at hk'; exact absurd hk' hne))
        (by intro k' hk' hne; simp at hk'; exact absurd hk' hne))
      (by simp [wfMap, GoVal.wf, List.lookup]) (by simp [wfMap, GoVal.wf, List.lookup])
    simpa [joinPath, buildNewKey, buildBaseKey] using h
  · exact diff_single_leaf_correct.2.1 [("W", GoVal.scalar "1")]
      (by simp [wfMap, GoVal.wf, List.lookup])
  · exact diff_single_leaf_correct.2.2
      [("W", GoVal.scalar "1")] [("W", GoVal.scalar "1"), ("B", GoVal.scalar "2")]
      "B" (GoVal.scalar "2")
      (by simp [wfMap, GoVal.wf, List.lookup]) (by simp [wfMap, GoVal.wf, List.lookup])
      (by simp [List.lookup]) (by simp [List.lookup])
      (by
        intro k' hk' hne
        simp at hk'
        rcases hk' with h | h
        · simp [List.lookup, h]
        · exact absurd h hne)

end Bootstrap

namespace Bootstrap

/-- Counterexample to C3 as stated: `c3upd1` and `c3upd2` are two iteration
orders (a permutation) of the same updated tree, yet against the same
previous tree the walk returns different changed key paths, because the
trees differ in two leaves. -/
def c3prev : List (String × GoVal) := [("A", GoVal.scalar "1"), ("B", GoVal.scalar "1")]

/-- One iteration order of the updated tree with two changed leaves. -/
def c3upd1 : List (String × GoVal) := [("A", GoVal.scalar "2"), ("B", GoVal.scalar "2")]

/-- The other iteration order of the same updated tree. -/
def c3upd2 : List (String × GoVal) := [("B", GoVal.scalar "2"), ("A", GoVal.scalar "2")]

/-- C3 counterexample: on the same pair of trees (same previous tree; the
two updated entry lists are permutations of one another, i.e. the same
unordered tree) two runs of the diff return different changed key paths,
so the diff is not deterministic across runs once more than one leaf
differs. -/
theorem diff_not_deterministic_multi_leaf :
    c3upd1.Perm c3upd2 ∧
    wfMap c3prev ∧ wfMap c3upd1 ∧ wfMap c3upd2 ∧
    findChangedKey c3prev c3upd1 = "A" ∧
    findChangedKey c3prev c3upd2 = "B" ∧
    findChangedKey c3prev c3upd1 ≠ findChangedKey c3prev c3upd2 := by
  refine ⟨List.Perm.swap _ _ _, ?_, ?_, ?_, ?_, ?_, ?_⟩
  · simp [wfMap, GoVal.wf, c3prev, List.lookup]
  · simp [wfMap, GoVal.wf, c3upd1, List.lookup]
  · simp [wfMap, GoVal.wf, c3upd2, List.lookup]
  · simp [findChangedKey, walkMapForChange, c3prev, c3upd1, List.lookup,
      scalarEqAny, buildNewKey]
  · simp [findChangedKey, walkMapForChange, c3prev, c3upd2, List.lookup,
      scalarEqAny, buildNewKey]
  · simp [findChangedKey, walkMapForChange, c3prev, c3upd1, c3upd2, List.lookup,
      scalarEqAny, buildNewKey]

/-- C3 amended: the diff is deterministic for single-leaf differences: any
two runs (any two well-formed iteration-order representations of a pair of
trees differing in exactly one leaf at path `p`) return the same changed
key path, namely `p`. With more than one differing leaf the returned path
may differ between runs (see the counterexample). -/
theorem diff_deterministic_single_leaf
    (prev1 upd1 prev2 upd2 : List (String × GoVal)) (p : List String)
    (h1 : DiffersAtOneLeaf prev1 upd1 p) (h2 : DiffersAtOneLeaf prev2 upd2 p)
    (hwp1 : wfMap prev1) (hwu1 : wfMap upd1)
    (hwp2 : wfMap prev2) (hwu2 : wfMap upd2) :
    findChangedKey prev1 upd1 = findChangedKey prev2 upd2 := by
  have hne : joinPath "" p ≠ "" := by
    have hkeys := diff_path_keys_ne_empty h1 hwu1
    have hp : p ≠ [] := by cases h1 <;> simp
    exact joinPath_ne_empty "" (Or.inr hp) hkeys
  have e1 : findChangedKey prev1 upd1 = joinPath "" p := by
    simp [findChangedKey, walk_finds_diff h1 hwp1 hwu1 "", hne]
  have e2 : findChangedKey prev2 upd2 = joinPath "" p := by
    simp [findChangedKey, walk_finds_diff h2 hwp2 hwu2 "", hne]
  rw [e1, e2]

/-- Witness for the amended C3: two permuted representations of the same
single-leaf difference give the same changed key. -/
theorem diff_deterministic_single_leaf_witness :
    findChangedKey [("A", GoVal.scalar "1"), ("B", GoVal.scalar "9")]
      [("A", GoVal.scalar "2"), ("B", GoVal.scalar "9")] =
    findChangedKey [("B", GoVal.scalar "9"), ("A", GoVal.scalar "1")]
      [("B", GoVal.scalar "9"), ("A", GoVal.scalar "2")] := by
  apply diff_deterministic_single_leaf _ _ _ _ ["A"]
  · exact DiffersAtOneLeaf.here _ _ "A" "1" "2"
      (by simp [List.lookup]) (by simp [List.lookup]) (by simp)
      (by
        intro k' hk' hne
        have hb : k' = "B" := by simp at hk'; tauto
        subst hb
        simp [List.lookup])
  · exact DiffersAtOneLeaf.here _ _ "A" "1" "2"
      (by simp [List.lookup]) (by simp [List.lookup]) (by simp)
      (by
        intro k' hk' hne
        have hb : k' = "B" := by simp at hk'; tauto
        subst hb
        simp [List.lookup])
  · simp [wfMap, GoVal.wf, List.lookup]
  · simp [wfMap, GoVal.wf, List.lookup]
  · simp [wfMap, GoVal.wf, List.lookup]
  · simp [wfMap, GoVal.wf, List.lookup]

end Bootstrap

namespace Bootstrap

/-- Substring occurrence on character lists (Go `strings.Contains`). -/
def listContainsSub (sub : List Char) : List Char → Bool
  | [] => sub.isEmpty
  | c :: rest => sub.isPrefixOf (c :: rest) || listContainsSub sub rest

/-- Go `strings.Contains s sub`. -/
def strContains (s sub : String) : Bool := listContainsSub sub.toList s.toList

/-- `isKeyInPrivate` from `config.go`, with the result of the live
`GetConfigurationKeys("Writable")` call on the private provider client
passed in: on error it returns `true` (an undetermined key must not be
overridden); otherwise it checks whether any returned key contains
`"Writable/" ++ changedKey` as a substring. -/
def isKeyInPrivate (keysResult : Except String (List String))
    (changedKey : String) : Bool :=
  match keysResult with
  | .error _ => true
  | .ok keys =>
    let fullKey := "Writable" ++ "/" ++ changedKey
    keys.any (fun key => strContains key fullKey)

/-- Modelled from the spec: `utils.ConvertToMap` converts an untyped value
to a `map[string]any`, failing with a `ConversionError` when the value is
not a mapping. -/
def convertToMap : GoVal → Except String (List (String × GoVal))
  | .vmap m => .ok m
  | .null => .error "conversion error"
  | .scalar _ => .error "conversion error"

/-- `isPrivateOverride` from `config.go`: convert both snapshots to maps
(conversion failure → `true`), search for the changed key in both walk
directions (none found → `true`), then consult the private section's live
keys (`isKeyInPrivate`). -/
def isPrivateOverride (previous updated : GoVal)
    (privateKeys : Except String (List String)) : Bool :=
  match convertToMap previous with
  | .error _ => true
  | .ok previousMap =>
    match convertToMap updated with
    | .error _ => true
    | .ok updatedMap =>
      let changedKey := findChangedKey previousMap updatedMap
      if changedKey = "" then true
      else if isKeyInPrivate privateKeys changedKey then true
      else false

/-- Modelled from the spec: `utils.MergeValues` deep-merges an untyped
overlay tree into the configuration, overlay values winning at leaves and
overlay-only keys being added (spec section 4.2). Depth-bounded by the
overlay's size, which bounds its mapping depth. -/
def mergeValuesFuel : Nat → GoVal → GoVal → GoVal
  | 0, _, o => o
  | fuel + 1, .vmap t, .vmap o =>
    .vmap ((t.map (fun kv =>
        match o.lookup kv.1 with
        | some ov => (kv.1, mergeValuesFuel fuel kv.2 ov)
        | none => kv)) ++
      o.filter (fun kv => (t.lookup kv.1).isNone))
  | _ + 1, _, o => o

/-- An executable size measure for untyped values, bounding mapping depth. -/
def GoVal.size : GoVal → Nat
  | .null => 1
  | .scalar _ => 1
  | .vmap [] => 1
  | .vmap ((_, v) :: rest) => 1 + v.size + (GoVal.vmap rest).size

/-- Modelled from the spec: the deep merge at its natural depth bound. -/
def mergeValues (target overlay : GoVal) : GoVal :=
  mergeValuesFuel overlay.size target overlay

/-- The configuration mutation performed by `applyWritableUpdates`: the
`utils.MergeValues` call on the service configuration's writable tree (its
side-effect dispatch is modelled separately by `writableUpdateDispatch`). -/
def applyWritableUpdatesTree (serviceConfig raw : GoVal) : GoVal :=
  mergeValues serviceConfig raw

/-- `processCommonConfigChange` from `config.go`: suppress the change when
it is a private override, otherwise merge it into the full service
configuration. -/
def processCommonConfigChange (fullServiceConfig previousCommonWritable raw : GoVal)
    (privateKeys : Except String (List String)) : GoVal :=
  if isPrivateOverride previousCommonWritable raw privateKeys then fullServiceConfig
  else applyWritableUpdatesTree fullServiceConfig raw

/-- State of the private-section watch loop (`listenForPrivateChanges`):
the first-update flag and the service configuration's writable tree. -/
structure PrivateLoopState where
  isFirstUpdate : Bool
  config : GoVal

/-- A push received by the private loop; `rawMap` is the snapshot after the
external `RemoveUnusedSettings` filtering. -/
structure PrivatePush where
  rawMap : GoVal

/-- One iteration of `listenForPrivateChanges`'s update branch: the first
delivery is discarded, later ones are applied via `applyWritableUpdates`. -/
def privateLoopStep (s : PrivateLoopState) (push : PrivatePush) : PrivateLoopState :=
  if s.isFirstUpdate then
    { isFirstUpdate := false, config := s.config }
  else
    { isFirstUpdate := false,
      config := applyWritableUpdatesTree s.config push.rawMap }

/-- State of the common-section watch loop (`listenForCommonChanges`). -/
structure CommonLoopState where
  isFirstUpdate : Bool
  previousCommonWritable : GoVal
  config : GoVal

/-- A push received by the common loop: the raw snapshot, the filtered
snapshot, and the private provider client's live key listing at processing
time. -/
structure CommonPush where
  raw : GoVal
  rawMap : GoVal
  privateKeys : Except String (List String)

/-- One iteration of `listenForCommonChanges`'s update branch: the first
delivery only seeds the cached previous snapshot; later deliveries run
`processCommonConfigChange` on the filtered snapshot and then refresh the
cached previous snapshot with the raw one unconditionally. -/
def commonLoopStep (s : CommonLoopState) (push : CommonPush) : CommonLoopState :=
  if s.isFirstUpdate then
    { isFirstUpdate := false, previousCommonWritable := push.rawMap,
      config := s.config }
  else
    { isFirstUpdate := false, previousCommonWritable := push.raw,
      config := processCommonConfigChange s.config s.previousCommonWritable
        push.rawMap push.privateKeys }

/-- State of the custom-configuration watch loop
(`ListenForCustomConfigChanges`): the first-update flag and the list of raw
snapshots handed to `changedCallback` so far (the callback is what mutates
the watched custom configuration section). -/
structure CustomLoopState where
  isFirstUpdate : Bool
  callbacksFired : List GoVal

/-- One iteration of `ListenForCustomConfigChanges`'s update branch. -/
def customLoopStep (s : CustomLoopState) (raw : GoVal) : CustomLoopState :=
  if s.isFirstUpdate then
    { isFirstUpdate := false, callbacksFired := s.callbacksFired }
  else
    { isFirstUpdate := false, callbacksFired := s.callbacksFired ++ [raw] }

/-- C4: in all three watch-loop variants the first delivered push is
discarded without merging: stepping the freshly-subscribed state with one
push leaves the configuration exactly as it was (the common variant only
records the push as its cached previous snapshot, and the custom variant
fires no callback). -/
theorem first_push_suppressed :
    (∀ (config : GoVal) (push : PrivatePush),
      privateLoopStep { isFirstUpdate := true, config := config } push =
        { isFirstUpdate := false, config := config }) ∧
    (∀ (prev0 config : GoVal) (push : CommonPush),
      commonLoopStep
        { isFirstUpdate := true, previousCommonWritable := prev0, config := config }
        push =
      { isFirstUpdate := false, previousCommonWritable := push.rawMap,
        config := config }) ∧
    (∀ (fired : List GoVal) (raw : GoVal),
      customLoopStep { isFirstUpdate := true, callbacksFired := fired } raw =
        { isFirstUpdate := false, callbacksFired := fired }) := by
  refine ⟨?_, ?_, ?_⟩
  · intro config push
    simp [privateLoopStep]
  · intro prev0 config push
    simp [commonLoopStep]
  · intro fired raw
    simp [customLoopStep]

/-- C2: a non-first common-section push whose changed key is found by the
diff and is included in the private section's live writable keys is
suppressed: the service configuration is unchanged and only the cached
previous snapshot is refreshed (with the raw snapshot). -/
theorem common_push_private_override_suppressed
    (s : CommonLoopState) (push : CommonPush)
    (previousMap updatedMap : List (String × GoVal)) (k : String)
    (hfirst : s.isFirstUpdate = false)
    (hcp : convertToMap s.previousCommonWritable = .ok previousMap)
    (hcu : convertToMap push.rawMap = .ok updatedMap)
    (hk : findChangedKey previousMap updatedMap = k)
    (hkne : k ≠ "")
    (hpriv : isKeyInPrivate push.privateKeys k = true) :
    commonLoopStep s push =
      { isFirstUpdate := false, previousCommonWritable := push.raw,
        config := s.config } := by
  have hover : isPrivateOverride s.previousCommonWritable push.rawMap
      push.privateKeys = true := by
    rw [isPrivateOverride, hcp, hcu]
    simp only [hk]
    simp [hkne, hpriv]
  simp [commonLoopStep, hfirst, processCommonConfigChange, hover]

/-- Witness for C2: a concrete `LogLevel` change that the private section
already overrides is suppressed and only the previous snapshot moves. -/
theorem common_push_private_override_suppressed_witness :
    commonLoopStep
      { isFirstUpdate := false,
        previousCommonWritable := GoVal.vmap [("LogLevel", GoVal.scalar "INFO")],
        config := GoVal.vmap [("LogLevel", GoVal.scalar "WARN")] }
      { raw := GoVal.scalar "rawPayload",
        rawMap := GoVal.vmap [("LogLevel", GoVal.scalar "DEBUG")],
        privateKeys := .ok ["edgex/v3/core-data/Writable/LogLevel"] } =
      { isFirstUpdate := false,
        previousCommonWritable := GoVal.scalar "rawPayload",
        config := GoVal.vmap [("LogLevel", GoVal.scalar "WARN")] } := by
  apply common_push_private_override_suppressed _ _
    [("LogLevel", GoVal.scalar "INFO")] [("LogLevel", GoVal.scalar "DEBUG")]
    "LogLevel"
  · rfl
  · rfl
  · rfl
  · simp [findChangedKey, walkMapForChange, List.lookup, scalarEqAny, buildNewKey]
  · simp
  · simp [isKeyInPrivate, strContains, listContainsSub]

/-- C5: every ambiguous common-section push is treated conservatively as a
private override and not applied: if converting either snapshot to a map
fails, or the diff finds no changed key in either direction, or the live
private-key query fails, `processCommonConfigChange` leaves the service
configuration unchanged. -/
theorem common_push_conservative_on_ambiguity
    (config previous updated : GoVal)
    (privateKeys : Except String (List String))
    (h : (∃ e, convertToMap previous = .error e) ∨
         (∃ e, convertToMap updated = .error e) ∨
         (∀ previousMap updatedMap, convertToMap previous = .ok previousMap →
            convertToMap updated = .ok updatedMap →
            findChangedKey previousMap updatedMap = "") ∨
         (∃ e, privateKeys = .error e)) :
    processCommonConfigChange config previous updated privateKeys = config := by
  have hover : isPrivateOverride previous updated privateKeys = true := by
    rw [isPrivateOverride]
    rcases hp : convertToMap previous with e | previousMap
    · rfl
    · rcases hu : convertToMap updated with e | updatedMap
      · rfl
      · rcases h with ⟨e, he⟩ | ⟨e, he⟩ | hnone | ⟨e, he⟩
        · rw [hp] at he; cases he
        · rw [hu] at he; cases he
        · simp [hnone previousMap updatedMap hp hu]
        · subst he
          by_cases hck : findChangedKey previousMap updatedMap = ""
          · simp [hck]
          · simp [hck, isKeyInPrivate]
  simp [processCommonConfigChange, hover]

/-- Witness for C5: a previous snapshot that is not a mapping cannot be
diffed, so the push is not applied. -/
theorem common_push_conservative_on_ambiguity_witness :
    processCommonConfigChange (GoVal.vmap [("LogLevel", GoVal.scalar "WARN")])
      GoVal.null (GoVal.vmap [("LogLevel", GoVal.scalar "DEBUG")])
      (.ok []) =
    GoVal.vmap [("LogLevel", GoVal.scalar "WARN")] :=
  common_push_conservative_on_ambiguity _ _ _ _
    (Or.inl ⟨"conversion error", rfl⟩)

end Bootstrap

namespace Bootstrap

/-- One entry of the `InsecureSecrets` map (`config.InsecureSecretsInfo`):
a secret name and a nil-able secret data map. -/
structure InsecureSecretsInfo where
  secretName : String
  secretData : Option (List (String × String))
deriving DecidableEq

/-- `config.InsecureSecrets`: a map from key to secret info, represented as
an association list carrying one map-iteration order. -/
abbrev InsecureSecrets := List (String × InsecureSecretsInfo)

/-- Content equality of two string maps (`reflect.DeepEqual` on
`map[string]string`). -/
def stringMapEqual (a b : List (String × String)) : Bool :=
  a.all (fun kv => b.lookup kv.1 == some kv.2) &&
  b.all (fun kv => a.lookup kv.1 == some kv.2)

/-- `reflect.DeepEqual` on nil-able secret data maps: nil equals only nil,
non-nil maps compare by content. -/
def dataEqual : Option (List (String × String)) → Option (List (String × String)) → Bool
  | none, none => true
  | some a, some b => stringMapEqual a b
  | _, _ => false

/-- `reflect.DeepEqual` on `InsecureSecretsInfo`. -/
def infoDeepEqual (a b : InsecureSecretsInfo) : Bool :=
  a.secretName == b.secretName && dataEqual a.secretData b.secretData

/-- `reflect.DeepEqual` on two `InsecureSecrets` maps: same key set with
deep-equal values. -/
def secretsMapDeepEqual (a b : InsecureSecrets) : Bool :=
  a.all (fun kv => match b.lookup kv.1 with
    | some bi => infoDeepEqual kv.2 bi
    | none => false) &&
  b.all (fun kv => match a.lookup kv.1 with
    | some ai => infoDeepEqual kv.2 ai
    | none => false)

/-- `reflect.DeepEqual` on nil-able `InsecureSecrets`: a nil map equals
only a nil map. -/
def insecureSecretsDeepEqual : Option InsecureSecrets → Option InsecureSecrets → Bool
  | none, none => true
  | some a, some b => secretsMapDeepEqual a b
  | _, _ => false

/-- The three writable fields tracked by `applyWritableUpdates`, read from
the service configuration before and after the merge. -/
structure WritableSnapshot where
  logLevel : String
  insecureSecrets : Option InsecureSecrets
  telemetryInterval : String

/-- Go map indexing with the zero value (`SecretName ""`, nil data). -/
def lookupSecret (m : InsecureSecrets) (k : String) : InsecureSecretsInfo :=
  (m.lookup k).getD ⟨"", none⟩

/-- First loop of `getSecretNamesChanged`: walk the previous map, catching
removed secrets (current data nil), modified secrets (deep inequality) and
renames (also report the previous name). -/
def secretNamesFromPrev (curVals : InsecureSecrets) : InsecureSecrets → List String
  | [] => []
  | (key, prevVal) :: rest =>
    let curVal := lookupSecret curVals key
    if curVal.secretData = none then
      prevVal.secretName :: secretNamesFromPrev curVals rest
    else if infoDeepEqual prevVal curVal = false then
      if prevVal.secretName ≠ curVal.secretName then
        curVal.secretName :: prevVal.secretName :: secretNamesFromPrev curVals rest
      else
        curVal.secretName :: secretNamesFromPrev curVals rest
    else secretNamesFromPrev curVals rest

/-- Second loop of `getSecretNamesChanged`: walk the current map, catching
newly added secrets (previous data nil). -/
def secretNamesFromCur (prevVals : InsecureSecrets) : InsecureSecrets → List String
  | [] => []
  | (key, curVal) :: rest =>
    if (lookupSecret prevVals key).secretData = none then
      curVal.secretName :: secretNamesFromCur prevVals rest
    else secretNamesFromCur prevVals rest

/-- `getSecretNamesChanged` from `config.go`. -/
def getSecretNamesChanged (prevVals curVals : InsecureSecrets) : List String :=
  secretNamesFromPrev curVals prevVals ++ secretNamesFromCur prevVals curVals

/-- Go `time.Duration` units in nanoseconds, longest match first. -/
def durationUnitNs : List Char → Option (Int × List Char)
  | 'n' :: 's' :: r => some (1, r)
  | 'u' :: 's' :: r => some (1000, r)
  | 'm' :: 's' :: r => some (1000000, r)
  | 'm' :: r => some (60000000000, r)
  | 's' :: r => some (1000000000, r)
  | 'h' :: r => some (3600000000000, r)
  | _ => none

/-- Decimal digits to a natural number. -/
def digitsToNat (ds : List Char) : Nat :=
  ds.foldl (fun acc c => acc * 10 + (c.toNat - '0'.toNat)) 0

/-- Sum of `number unit` components, nanoseconds. -/
def parseComponents : Nat → List Char → Int → Option Int
  | _, [], acc => some acc
  | 0, _ :: _, _ => none
  | fuel + 1, c :: cs, acc =>
    let ds := (c :: cs).takeWhile Char.isDigit
    let rest := (c :: cs).dropWhile Char.isDigit
    if ds.isEmpty then none
    else match durationUnitNs rest with
      | none => none
      | some (mult, rest2) =>
        parseComponents fuel rest2 (acc + (digitsToNat ds : Int) * mult)

/-- Modelled from the spec: Go `time.ParseDuration` (external standard
library), restricted to an optional sign followed by integer `number unit`
components with units `ns`, `us`, `ms`, `s`, `m`, `h`, plus the special
case `"0"`; fractional components are outside the model. Returns the
duration in nanoseconds, or `none` for an invalid string. -/
def parseDuration (s : String) : Option Int :=
  let cs0 := s.toList
  let neg : Bool := match cs0 with
    | '-' :: _ => true
    | _ => false
  let cs := match cs0 with
    | '-' :: r => r
    | '+' :: r => r
    | r => r
  if cs = ['0'] then some 0
  else if cs.isEmpty then none
  else match parseComponents cs.length cs 0 with
    | none => none
    | some n => some (if neg then -n else n)

/-- `math.MaxInt64`: the maximum representable `time.Duration`. -/
def maxInt64 : Int := 9223372036854775807

/-- Which of the four `switch` cases of `applyWritableUpdates` fired. -/
inductive FiredBranch where
  | logLevel
  | secrets
  | telemetry
  | generic
deriving DecidableEq

/-- The observable side effects of one `applyWritableUpdates` dispatch:
which switch case fired, the log level handed to `SetLogLevel`, the secret
names handed to `SecretUpdatedAtSecretName` (in call order), the duration
handed to `ResetInterval`, and whether the generic `configUpdated` signal
was sent. -/
structure DispatchResult where
  branch : FiredBranch
  logLevelSet : Option String
  secretCallbacks : List String
  intervalReset : Option Int
  genericSignaled : Bool
deriving DecidableEq

/-- The guard of the insecure-secrets case: the post-merge map is non-nil
and deeply unequal to the pre-merge map. -/
def insecureSecretsChangedCond (previous current : WritableSnapshot) : Bool :=
  current.insecureSecrets.isSome &&
    !(insecureSecretsDeepEqual current.insecureSecrets previous.insecureSecrets)

/-- The side-effect dispatch of `applyWritableUpdates` from `config.go`,
over the pre- and post-merge snapshots of the three tracked fields.
`hasSecretProvider`, `hasMetricsManager` and `hasConfigUpdatedChannel`
model the nil checks on the secret provider, the metrics manager and the
`configUpdated` channel. -/
def writableUpdateDispatch (previous current : WritableSnapshot)
    (hasSecretProvider hasMetricsManager hasConfigUpdatedChannel : Bool) :
    DispatchResult :=
  if current.logLevel ≠ previous.logLevel then
    { branch := .logLevel, logLevelSet := some current.logLevel,
      secretCallbacks := [], intervalReset := none, genericSignaled := false }
  else if insecureSecretsChangedCond previous current then
    { branch := .secrets, logLevelSet := none,
      secretCallbacks :=
        if hasSecretProvider then
          getSecretNamesChanged (previous.insecureSecrets.getD [])
            (current.insecureSecrets.getD [])
        else [],
      intervalReset := none, genericSignaled := false }
  else if current.telemetryInterval ≠ previous.telemetryInterval then
    match parseDuration current.telemetryInterval with
    | none =>
      { branch := .telemetry, logLevelSet := none, secretCallbacks := [],
        intervalReset := none, genericSignaled := false }
    | some interval =>
      if hasMetricsManager then
        { branch := .telemetry, logLevelSet := none, secretCallbacks := [],
          intervalReset := some (if interval = 0 then maxInt64 else interval),
          genericSignaled := false }
      else
        { branch := .telemetry, logLevelSet := none, secretCallbacks := [],
          intervalReset := none, genericSignaled := false }
  else
    { branch := .generic, logLevelSet := none, secretCallbacks := [],
      intervalReset := none, genericSignaled := hasConfigUpdatedChannel }

end Bootstrap

namespace Bootstrap

/-- C6: the dispatcher fires at most one category of side effect, chosen in
priority order log-level, insecure-secrets, telemetry-interval, generic
notification; and when only the log level changed, only the log-level side
effect fires (no secret callback, no interval reset, no generic signal). -/
theorem dispatcher_single_trigger :
    (∀ previous current sp mm ch,
      (writableUpdateDispatch previous current sp mm ch).branch =
        (if current.logLevel ≠ previous.logLevel then .logLevel
         else if insecureSecretsChangedCond previous current then .secrets
         else if current.telemetryInterval ≠ previous.telemetryInterval then .telemetry
         else FiredBranch.generic)) ∧
    (∀ previous current sp mm ch,
      ((writableUpdateDispatch previous current sp mm ch).branch = .logLevel →
        (writableUpdateDispatch previous current sp mm ch).secretCallbacks = [] ∧
        (writableUpdateDispatch previous current sp mm ch).intervalReset = none ∧
        (writableUpdateDispatch previous current sp mm ch).genericSignaled = false) ∧
      ((writableUpdateDispatch previous current sp mm ch).branch = .secrets →
        (writableUpdateDispatch previous current sp mm ch).logLevelSet = none ∧
        (writableUpdateDispatch previous current sp mm ch).intervalReset = none ∧
        (writableUpdateDispatch previous current sp mm ch).genericSignaled = false) ∧
      ((writableUpdateDispatch previous current sp mm ch).branch = .telemetry →
        (writableUpdateDispatch previous current sp mm ch).logLevelSet = none ∧
        (writableUpdateDispatch previous current sp mm ch).secretCallbacks = [] ∧
        (writableUpdateDispatch previous current sp mm ch).genericSignaled = false) ∧
      ((writableUpdateDispatch previous current sp mm ch).branch = .generic →
        (writableUpdateDispatch previous current sp mm ch).logLevelSet = none ∧
        (writableUpdateDispatch previous current sp mm ch).secretCallbacks = [] ∧
        (writableUpdateDispatch previous current sp mm ch).intervalReset = none)) ∧
    (∀ previous current sp mm ch, current.logLevel ≠ previous.logLevel →
      writableUpdateDispatch previous current sp mm ch =
        { branch := .logLevel, logLevelSet := some current.logLevel,
          secretCallbacks := [], intervalReset := none,
          genericSignaled := false }) := by
  refine ⟨?_, ?_, ?_⟩
  · intro previous current sp mm ch
    unfold writableUpdateDispatch
    split
    · simp
    · split
      · simp_all
      · split
        · rcases hpd : parseDuration current.telemetryInterval with _ | d
          · simp_all
          · cases mm <;> simp_all
        · simp_all
  · intro previous current sp mm ch
    unfold writableUpdateDispatch
    split
    · simp
    · split
      · simp
      · split
        · rcases hpd : parseDuration current.telemetryInterval with _ | d
          · simp_all
          · cases mm <;> simp_all
        · simp
  · intro previous current sp mm ch hll
    unfold writableUpdateDispatch
    simp [hll]

/-- Witness for C6: with only the log level changed from INFO to DEBUG,
the dispatcher fires exactly the log-level side effect. -/
theorem dispatcher_single_trigger_witness :
    writableUpdateDispatch
      { logLevel := "INFO", insecureSecrets := none, telemetryInterval := "30s" }
      { logLevel := "DEBUG", insecureSecrets := none, telemetryInterval := "30s" }
      true true true =
    { branch := .logLevel, logLevelSet := some "DEBUG", secretCallbacks := [],
      intervalReset := none, genericSignaled := false } :=
  dispatcher_single_trigger.2.2
    { logLevel := "INFO", insecureSecrets := none, telemetryInterval := "30s" }
    { logLevel := "DEBUG", insecureSecrets := none, telemetryInterval := "30s" }
    true true true (by decide)

/-- C7: on a telemetry-interval change the new value is parsed as a
duration; a parse failure skips the reset (the previous interval stays in
effect), a parsed zero resets the interval to the maximum representable
duration, and any other parsed value resets the interval to that value. -/
theorem telemetry_interval_update
    (previous current : WritableSnapshot) (sp ch : Bool)
    (hll : current.logLevel = previous.logLevel)
    (hsec : insecureSecretsChangedCond previous current = false)
    (hti : current.telemetryInterval ≠ previous.telemetryInterval) :
    (parseDuration current.telemetryInterval = none →
      (writableUpdateDispatch previous current sp true ch).intervalReset = none) ∧
    (parseDuration current.telemetryInterval = some 0 →
      (writableUpdateDispatch previous current sp true ch).intervalReset =
        some maxInt64) ∧
    (∀ d, parseDuration current.telemetryInterval = some d → d ≠ 0 →
      (writableUpdateDispatch previous current sp true ch).intervalReset =
        some d) := by
  refine ⟨?_, ?_, ?_⟩
  · intro hpd
    simp [writableUpdateDispatch, hll, hsec, hti, hpd]
  · intro hpd
    simp [writableUpdateDispatch, hll, hsec, hti, hpd]
  · intro d hpd hd
    simp [writableUpdateDispatch, hll, hsec, hti, hpd, hd]

/-- Witness for C7: the interval changing from `"30s"` to `"0s"` resets the
reporting interval to the maximum representable duration, not zero. -/
theorem telemetry_interval_update_witness :
    (writableUpdateDispatch
      { logLevel := "INFO", insecureSecrets := none, telemetryInterval := "30s" }
      { logLevel := "INFO", insecureSecrets := none, telemetryInterval := "0s" }
      true true true).intervalReset = some maxInt64 :=
  (telemetry_interval_update
    { logLevel := "INFO", insecureSecrets := none, telemetryInterval := "30s" }
    { logLevel := "INFO", insecureSecrets := none, telemetryInterval := "0s" }
    true true rfl (by decide) (by decide)).2.1 (by decide)

/-- C9: when the post-merge insecure-secrets map is nil the secrets branch
is skipped and no rotation callback fires, even if the pre-merge map was
non-nil and deeply unequal; with the log level unchanged the update falls
through to the telemetry check or the generic notification. -/
theorem insecure_secrets_nil_skipped
    (previous current : WritableSnapshot) (sp mm ch : Bool)
    (hnil : current.insecureSecrets = none) :
    (writableUpdateDispatch previous current sp mm ch).branch ≠ .secrets ∧
    (writableUpdateDispatch previous current sp mm ch).secretCallbacks = [] ∧
    (current.logLevel = previous.logLevel →
      (writableUpdateDispatch previous current sp mm ch).branch = .telemetry ∨
      (writableUpdateDispatch previous current sp mm ch).branch = .generic) := by
  have hcond : insecureSecretsChangedCond previous current = false := by
    simp [insecureSecretsChangedCond, hnil]
  refine ⟨?_, ?_, ?_⟩
  · unfold writableUpdateDispatch
    split
    · simp
    · rw [hcond]
      simp only [if_false, Bool.false_eq_true]
      split
      · rcases hpd : parseDuration current.telemetryInterval with _ | d
        · simp_all
        · cases mm <;> simp_all
      · simp
  · unfold writableUpdateDispatch
    split
    · simp
    · rw [hcond]
      simp only [if_false, Bool.false_eq_true]
      split
      · rcases hpd : parseDuration current.telemetryInterval with _ | d
        · simp_all
        · cases mm <;> simp_all
      · simp
  · intro hll
    unfold writableUpdateDispatch
    rw [hcond]
    simp only [hll]
    simp only [ne_eq, not_true_eq_false, if_false, Bool.false_eq_true]
    split
    · rcases hpd : parseDuration current.telemetryInterval with _ | d
      · simp_all
      · cases mm <;> simp_all
    · simp

/-- Witness for C9: a previously non-nil, deeply different secrets map with
a nil post-merge map fires no secret callback and lands on the generic
branch. -/
theorem insecure_secrets_nil_skipped_witness :
    (writableUpdateDispatch
      { logLevel := "INFO",
        insecureSecrets := some [("credentials", ⟨"credentials", some [("user", "admin")]⟩)],
        telemetryInterval := "30s" }
      { logLevel := "INFO", insecureSecrets := none, telemetryInterval := "30s" }
      true true true).branch ≠ .secrets ∧
    (writableUpdateDispatch
      { logLevel := "INFO",
        insecureSecrets := some [("credentials", ⟨"credentials", some [("user", "admin")]⟩)],
        telemetryInterval := "30s" }
      { logLevel := "INFO", insecureSecrets := none, telemetryInterval := "30s" }
      true true true).secretCallbacks = [] := by
  have h := insecure_secrets_nil_skipped
    { logLevel := "INFO",
      insecureSecrets := some [("credentials", ⟨"credentials", some [("user", "admin")]⟩)],
      telemetryInterval := "30s" }
    { logLevel := "INFO", insecureSecrets := none, telemetryInterval := "30s" }
    true true true rfl
  exact ⟨h.1, h.2.1⟩

end Bootstrap

namespace Bootstrap

/-- A successful association-list lookup names an entry (generic version). -/
theorem lookup_mem {β : Type} {m : List (String × β)} {k : String} {v : β}
    (h : m.lookup k = some v) : (k, v) ∈ m := by
  induction m with
  | nil => simp [List.lookup] at h
  | cons hd tl ih =>
    obtain ⟨k0, v0⟩ := hd
    cases hbe : (k == k0) with
    | true =>
      simp only [List.lookup, hbe, Option.some.injEq] at h
      have hkk : k = k0 := by simpa using hbe
      subst hkk; subst h
      exact List.mem_cons_self _ _
    | false =>
      simp only [List.lookup, hbe] at h
      exact List.mem_cons_of_mem _ (ih h)

/-- Every entry of the insecure-secrets map carries a non-nil data map
(the well-formedness under which absence is detectable through the
`SecretData == nil` sentinel). -/
abbrev allDataSome (m : InsecureSecrets) : Prop :=
  (m.all (fun kv => kv.2.secretData.isSome)) = true

/-- Under `allDataSome`, the zero-value lookup's data is nil exactly when
the key is absent. -/
theorem lookupSecret_data_none_iff {m : InsecureSecrets} {k : String}
    (hm : allDataSome m) :
    (lookupSecret m k).secretData = none ↔ m.lookup k = none := by
  unfold lookupSecret
  rcases hl : m.lookup k with _ | v
  · simp
  · have hv : v.secretData.isSome = true := by
      have hmem := lookup_mem hl
      have := List.all_eq_true.mp hm _ hmem
      simpa using this
    simp only [Option.getD_some]
    constructor
    · intro hdn
      rw [hdn] at hv
      cases hv
    · intro h
      cases h

/-- Membership in the first loop's output: a name is reported iff some
previous entry was removed, modified, or renamed. -/
theorem mem_secretNamesFromPrev {curVals : InsecureSecrets}
    (hc : allDataSome curVals) (prevVals : InsecureSecrets) (name : String) :
    name ∈ secretNamesFromPrev curVals prevVals ↔
      ∃ k pi, (k, pi) ∈ prevVals ∧
        ((curVals.lookup k = none ∧ name = pi.secretName) ∨
         (∃ ci, curVals.lookup k = some ci ∧ infoDeepEqual pi ci = false ∧
           (name = ci.secretName ∨
            (name = pi.secretName ∧ pi.secretName ≠ ci.secretName)))) := by
  induction prevVals with
  | nil => simp [secretNamesFromPrev]
  | cons hd rest ih =>
    obtain ⟨k0, p0⟩ := hd
    by_cases hdn : (lookupSecret curVals k0).secretData = none
    · have hnone : curVals.lookup k0 = none :=
        (lookupSecret_data_none_iff hc).mp hdn
      rw [secretNamesFromPrev]
      simp only [hdn, if_true, List.mem_cons, ih]
      constructor
      · rintro (rfl | ⟨k, pi, hmem, hbody⟩)
        · exact ⟨k0, p0, Or.inl rfl, Or.inl ⟨hnone, rfl⟩⟩
        · exact ⟨k, pi, Or.inr hmem, hbody⟩
      · rintro ⟨k, pi, hmem, hbody⟩
        rcases hmem with heq | hmem'
        · cases heq
          rcases hbody with ⟨_, hn⟩ | ⟨ci, hci, _⟩
          · exact Or.inl hn
          · rw [hnone] at hci; cases hci
        · exact Or.inr ⟨k, pi, hmem', hbody⟩
    · obtain ⟨ci, hci, hcieq⟩ : ∃ ci, curVals.lookup k0 = some ci ∧
          lookupSecret curVals k0 = ci := by
        rcases hl : curVals.lookup k0 with _ | v
        · exact absurd ((lookupSecret_data_none_iff hc).mpr hl) hdn
        · exact ⟨v, rfl, by simp [lookupSecret, hl]⟩
      rw [secretNamesFromPrev]
      simp only [hdn, if_false]
      rw [hcieq]
      by_cases hde : infoDeepEqual p0 ci = false
      · rw [if_pos hde]
        by_cases hrn : p0.secretName ≠ ci.secretName
        · rw [if_pos hrn]
          simp only [List.mem_cons, ih]
          constructor
          · rintro (rfl | rfl | ⟨k, pi, hmem, hbody⟩)
            · exact ⟨k0, p0, Or.inl rfl,
                Or.inr ⟨ci, hci, hde, Or.inl rfl⟩⟩
            · exact ⟨k0, p0, Or.inl rfl,
                Or.inr ⟨ci, hci, hde, Or.inr ⟨rfl, hrn⟩⟩⟩
            · exact ⟨k, pi, Or.inr hmem, hbody⟩
          · rintro ⟨k, pi, hmem, hbody⟩
            rcases hmem with heq | hmem'
            · cases heq
              rcases hbody with ⟨hn, _⟩ | ⟨ci', hci', _, hname⟩
              · rw [hn] at hci; cases hci
              · rw [hci] at hci'
                cases hci'
                rcases hname with rfl | ⟨rfl, _⟩
                · exact Or.inl rfl
                · exact Or.inr (Or.inl rfl)
            · exact Or.inr (Or.inr ⟨k, pi, hmem', hbody⟩)
        · rw [if_neg hrn]
          push_neg at hrn
          simp only [List.mem_cons, ih]
          constructor
          · rintro (rfl | ⟨k, pi, hmem, hbody⟩)
            · exact ⟨k0, p0, Or.inl rfl,
                Or.inr ⟨ci, hci, hde, Or.inl rfl⟩⟩
            · exact ⟨k, pi, Or.inr hmem, hbody⟩
          · rintro ⟨k, pi, hmem, hbody⟩
            rcases hmem with heq | hmem'
            · cases heq
              rcases hbody with ⟨hn, _⟩ | ⟨ci', hci', _, hname⟩
              · rw [hn] at hci; cases hci
              · rw [hci] at hci'
                cases hci'
                rcases hname with rfl | ⟨rfl, hne⟩
                · exact Or.inl rfl
                · exact absurd hrn hne
            · exact Or.inr ⟨k, pi, hmem', hbody⟩
      · rw [if_neg hde]
        have hde' : infoDeepEqual p0 ci = true := by
          cases h : infoDeepEqual p0 ci
          · exact absurd h hde
          · rfl
        rw [ih]
        constructor
        · rintro ⟨k, pi, hmem, hbody⟩
          exact ⟨k, pi, List.mem_cons_of_mem _ hmem, hbody⟩
        · rintro ⟨k, pi, hmem, hbody⟩
          rcases List.mem_cons.mp hmem with heq | hmem'
          · cases heq
            rcases hbody with ⟨hn, _⟩ | ⟨ci', hci', hdeq, _⟩
            · rw [hn] at hci; cases hci
            · rw [hci] at hci'
              cases hci'
              rw [hde'] at hdeq
              cases hdeq
          · exact ⟨k, pi, hmem', hbody⟩

/-- Membership in the second loop's output: a name is reported iff some
current entry is newly added. -/
theorem mem_secretNamesFromCur {prevVals : InsecureSecrets}
    (hp : allDataSome prevVals) (curVals : InsecureSecrets) (name : String) :
    name ∈ secretNamesFromCur prevVals curVals ↔
      ∃ k ci, (k, ci) ∈ curVals ∧ prevVals.lookup k = none ∧
        name = ci.secretName := by
  induction curVals with
  | nil => simp [secretNamesFromCur]
  | cons hd rest ih =>
    obtain ⟨k0, c0⟩ := hd
    rw [secretNamesFromCur]
    by_cases hdn : (lookupSecret prevVals k0).secretData = none
    · have hnone : prevVals.lookup k0 = none :=
        (lookupSecret_data_none_iff hp).mp hdn
      simp only [hdn, if_true, List.mem_cons, ih]
      constructor
      · rintro (rfl | ⟨k, ci, hmem, hbody⟩)
        · exact ⟨k0, c0, Or.inl rfl, hnone, rfl⟩
        · exact ⟨k, ci, Or.inr hmem, hbody⟩
      · rintro ⟨k, ci, hmem, hlook, hname⟩
        rcases hmem with heq | hmem'
        · cases heq
          exact Or.inl hname
        · exact Or.inr ⟨k, ci, hmem', hlook, hname⟩
    · simp only [hdn, if_false, ih]
      constructor
      · rintro ⟨k, ci, hmem, hbody⟩
        exact ⟨k, ci, List.mem_cons_of_mem _ hmem, hbody⟩
      · rintro ⟨k, ci, hmem, hlook, hname⟩
        rcases List.mem_cons.mp hmem with heq | hmem'
        · cases heq
          exact absurd ((lookupSecret_data_none_iff hp).mpr hlook) hdn
        · exact ⟨k, ci, hmem', hlook, hname⟩

/-- C8: `getSecretNamesChanged` returns exactly the symmetric change set of
secret names (previous name of each removed secret, current name of each
added or modified secret, both names of a renamed secret), and the
dispatcher's insecure-secrets branch invokes the rotation callback once per
entry of exactly that list. -/
theorem secret_names_changed_symmetric :
    (∀ prevVals curVals, allDataSome prevVals → allDataSome curVals →
      ∀ name, name ∈ getSecretNamesChanged prevVals curVals ↔
        ((∃ k pi, (k, pi) ∈ prevVals ∧ curVals.lookup k = none ∧
            name = pi.secretName) ∨
         (∃ k ci, (k, ci) ∈ curVals ∧ prevVals.lookup k = none ∧
            name = ci.secretName) ∨
         (∃ k pi ci, (k, pi) ∈ prevVals ∧ curVals.lookup k = some ci ∧
            infoDeepEqual pi ci = false ∧
            (name = ci.secretName ∨
             (name = pi.secretName ∧ pi.secretName ≠ ci.secretName))))) ∧
    (∀ previous current mm ch, current.logLevel = previous.logLevel →
      insecureSecretsChangedCond previous current = true →
      (writableUpdateDispatch previous current true mm ch).secretCallbacks =
        getSecretNamesChanged (previous.insecureSecrets.getD [])
          (current.insecureSecrets.getD [])) := by
  constructor
  · intro prevVals curVals hp hc name
    rw [getSecretNamesChanged, List.mem_append,
      mem_secretNamesFromPrev hc prevVals name,
      mem_secretNamesFromCur hp curVals name]
    constructor
    · rintro (⟨k, pi, hmem, ⟨hl, hn⟩ | ⟨ci, hci, hde, hname⟩⟩ | ⟨k, ci, hmem, hl, hn⟩)
      · exact Or.inl ⟨k, pi, hmem, hl, hn⟩
      · exact Or.inr (Or.inr ⟨k, pi, ci, hmem, hci, hde, hname⟩)
      · exact Or.inr (Or.inl ⟨k, ci, hmem, hl, hn⟩)
    · rintro (⟨k, pi, hmem, hl, hn⟩ | ⟨k, ci, hmem, hl, hn⟩ |
        ⟨k, pi, ci, hmem, hci, hde, hname⟩)
      · exact Or.inl ⟨k, pi, hmem, Or.inl ⟨hl, hn⟩⟩
      · exact Or.inr ⟨k, ci, hmem, hl, hn⟩
      · exact Or.inl ⟨k, pi, hmem, Or.inr ⟨ci, hci, hde, hname⟩⟩
  · intro previous current mm ch hll hcond
    simp [writableUpdateDispatch, hll, hcond]

/-- Witness for C8 at a concrete pair of secrets maps: a removed, an
added, and a renamed secret are all reported, and the dispatcher's
callback list is exactly the returned list. -/
theorem secret_names_changed_symmetric_witness :
    ("gone" ∈ getSecretNamesChanged
      [("a", ⟨"gone", some [("u", "1")]⟩), ("b", ⟨"old", some [("u", "2")]⟩)]
      [("b", ⟨"new", some [("u", "2")]⟩), ("c", ⟨"fresh", some [("u", "3")]⟩)]) ∧
    ("fresh" ∈ getSecretNamesChanged
      [("a", ⟨"gone", some [("u", "1")]⟩), ("b", ⟨"old", some [("u", "2")]⟩)]
      [("b", ⟨"new", some [("u", "2")]⟩), ("c", ⟨"fresh", some [("u", "3")]⟩)]) ∧
    ("old" ∈ getSecretNamesChanged
      [("a", ⟨"gone", some [("u", "1")]⟩), ("b", ⟨"old", some [("u", "2")]⟩)]
      [("b", ⟨"new", some [("u", "2")]⟩), ("c", ⟨"fresh", some [("u", "3")]⟩)]) ∧
    ("new" ∈ getSecretNamesChanged
      [("a", ⟨"gone", some [("u", "1")]⟩), ("b", ⟨"old", some [("u", "2")]⟩)]
      [("b", ⟨"new", some [("u", "2")]⟩), ("c", ⟨"fresh", some [("u", "3")]⟩)]) := by
  refine ⟨?_, ?_, ?_, ?_⟩
  · exact (secret_names_changed_symmetric.1 _ _ (by decide) (by decide) "gone").mpr
      (Or.inl ⟨"a", ⟨"gone", some [("u", "1")]⟩, by decide, by decide, rfl⟩)
  · exact (secret_names_changed_symmetric.1 _ _ (by decide) (by decide) "fresh").mpr
      (Or.inr (Or.inl ⟨"c", ⟨"fresh", some [("u", "3")]⟩, by decide, by decide, rfl⟩))
  · exact (secret_names_changed_symmetric.1 _ _ (by decide) (by decide) "old").mpr
      (Or.inr (Or.inr ⟨"b", ⟨"old", some [("u", "2")]⟩, ⟨"new", some [("u", "2")]⟩,
        by decide, by decide, by decide, Or.inr ⟨rfl, by decide⟩⟩))
  · exact (secret_names_changed_symmetric.1 _ _ (by decide) (by decide) "new").mpr
      (Or.inr (Or.inr ⟨"b", ⟨"old", some [("u", "2")]⟩, ⟨"new", some [("u", "2")]⟩,
        by decide, by decide, by decide, Or.inl rfl⟩))

end Bootstrap

namespace Bootstrap

/-- Go `strings.Split(s, " ")`: split around each single space (an empty
string yields one empty field). -/
def goSplitSpace (s : String) : List String :=
  (s.toList.splitOn ' ').map (fun cs => String.mk cs)

/-- ASCII lower-casing of one character. -/
def charToLower (c : Char) : Char :=
  if 'A' ≤ c ∧ c ≤ 'Z' then Char.ofNat (c.toNat + 32) else c

/-- Go `strings.EqualFold` on ASCII strings: case-insensitive equality. -/
def equalFold (a b : String) : Bool :=
  a.toList.map charToLower == b.toList.map charToLower

/-- The observable outcome of the middleware on one request: the wrapped
inner handler was invoked, or a 401, or a 500 response was written. -/
inductive AuthOutcome where
  | innerInvoked
  | unauthorized
  | serverError
deriving DecidableEq

/-- `VaultAuthenticationHandlerFunc` from `auth_middleware.go`, over the
request's `Authorization` header (the empty string when the header is
missing) and the secret provider's `IsJWTValid` capability (`.error` for a
transport error, `.ok` for a verdict): split the header on spaces, require
at least two parts with the first case-insensitively equal to `Bearer`,
validate the second part, and map an error to 500, an invalid token or a
malformed header to 401, and a valid token to the inner handler. -/
def vaultAuthenticationHandler (isJWTValid : String → Except String Bool)
    (authHeader : String) : AuthOutcome :=
  if (goSplitSpace authHeader).length ≥ 2 ∧
      equalFold ((goSplitSpace authHeader).headD "") "Bearer" = true then
    match isJWTValid ((goSplitSpace authHeader)[1]?.getD "") with
    | .error _ => .serverError
    | .ok false => .unauthorized
    | .ok true => .innerInvoked
  else .unauthorized

/-- C10: the middleware invokes the inner handler exactly when the header
splits into at least two parts, the first equals `Bearer`
case-insensitively, and the token validates with no error; a validity-check
error yields 500, and an invalid token or malformed/missing header yields
401, never invoking the inner handler. -/
theorem vault_auth_characterization
    (isJWTValid : String → Except String Bool) (authHeader : String) :
    (vaultAuthenticationHandler isJWTValid authHeader = .innerInvoked ↔
      ((goSplitSpace authHeader).length ≥ 2 ∧
       equalFold ((goSplitSpace authHeader).headD "") "Bearer" = true ∧
       isJWTValid ((goSplitSpace authHeader)[1]?.getD "") = .ok true)) ∧
    (∀ e, (goSplitSpace authHeader).length ≥ 2 →
      equalFold ((goSplitSpace authHeader).headD "") "Bearer" = true →
      isJWTValid ((goSplitSpace authHeader)[1]?.getD "") = .error e →
      vaultAuthenticationHandler isJWTValid authHeader = .serverError) ∧
    (¬((goSplitSpace authHeader).length ≥ 2 ∧
        equalFold ((goSplitSpace authHeader).headD "") "Bearer" = true) →
      vaultAuthenticationHandler isJWTValid authHeader = .unauthorized) ∧
    (isJWTValid ((goSplitSpace authHeader)[1]?.getD "") = .ok false →
      vaultAuthenticationHandler isJWTValid authHeader = .unauthorized) := by
  refine ⟨?_, ?_, ?_, ?_⟩
  · unfold vaultAuthenticationHandler
    split
    · rcases hv : isJWTValid ((goSplitSpace authHeader)[1]?.getD "") with e | b
      · simp_all
      · cases b <;> simp_all
    · rename_i hcond
      constructor
      · intro h
        exact absurd h (by decide)
      · intro h
        exact absurd ⟨h.1, h.2.1⟩ hcond
  · intro e hlen hfold hv
    unfold vaultAuthenticationHandler
    rw [if_pos ⟨hlen, hfold⟩]
    simp [hv]
  · intro hcond
    unfold vaultAuthenticationHandler
    rw [if_neg hcond]
  · intro hv
    unfold vaultAuthenticationHandler
    split
    · simp [hv]
    · rfl

/-- Witness for C10: a well-formed bearer header with a valid token reaches
the inner handler; an invalid token yields 401; a checker error yields 500;
a missing header yields 401. -/
theorem vault_auth_characterization_witness :
    vaultAuthenticationHandler
      (fun t => if t = "boom" then .error "io" else .ok (t == "good"))
      "Bearer good" = .innerInvoked ∧
    vaultAuthenticationHandler
      (fun t => if t = "boom" then .error "io" else .ok (t == "good"))
      "bearer bad" = .unauthorized ∧
    vaultAuthenticationHandler
      (fun t => if t = "boom" then .error "io" else .ok (t == "good"))
      "Bearer boom" = .serverError ∧
    vaultAuthenticationHandler
      (fun t => if t = "boom" then .error "io" else .ok (t == "good"))
      "" = .unauthorized := by
  refine ⟨?_, ?_, ?_, ?_⟩
  · exact (vault_auth_characterization
      (fun t => if t = "boom" then .error "io" else .ok (t == "good"))
      "Bearer good").1.mpr
      ⟨by decide, by decide, rfl⟩
  · exact (vault_auth_characterization
      (fun t => if t = "boom" then .error "io" else .ok (t == "good"))
      "bearer bad").2.2.2 rfl
  · exact (vault_auth_characterization
      (fun t => if t = "boom" then .error "io" else .ok (t == "good"))
      "Bearer boom").2.1 "io" (by decide) (by decide) rfl
  · exact (vault_auth_characterization
      (fun t => if t = "boom" then .error "io" else .ok (t == "good"))
      "").2.2.1 (by decide)

end Bootstrap
